import Mathlib

/-!
# Verification of the pySAT continuous-time SAT solver

Shallow embedding of the core data model and operations of `src/pySAT.py`
(class `SAT`, its clause bookkeeping, mutation operations, the pure Python
right-hand-side formulations, and the event functions of `CTD.fast_solve`),
together with theorems settling the specification claims.

Conventions:
* Python floats are modelled by `ℚ` (every operation the claims touch is
  exact rational arithmetic at the states considered).
* Python lists are Lean `List`s; an index that Python would access is always
  in range under the theorems' hypotheses, so out-of-range access is modelled
  by `List.getD` with an arbitrary default.
* A Python function that can raise is modelled with `Except` / `Option`.
* Binary solution strings (characters `'0'`/`'1'`) are modelled as
  `List Bool` (`'1'` is `true`).
-/

namespace PySAT

abbrev Clause := List Int

/-- Product of a list of rationals (`np.prod`, empty product is `1`). -/
def prodList (l : List ℚ) : ℚ := l.foldr (· * ·) 1

/-- Sum of a list of rationals (Python `sum`, empty sum is `0`). -/
def sumList (l : List ℚ) : ℚ := l.foldr (· + ·) 0

/-- Entry `c[m][j]` of the clause matrix, recomputed from a clause as in
`SAT.__init__` (src/pySAT.py line 188): `1` if variable `j+1` occurs
positively, `-1` if negatively, else `0`. -/
def cEntry (clause : Clause) (j : Nat) : Int :=
  if ((j : Int) + 1) ∈ clause then 1
  else if (-((j : Int) + 1)) ∈ clause then -1
  else 0

/-- The clause matrix `self.c` built from the clause list (line 188). -/
def cMatrix (N : Nat) (clauses : List Clause) : List (List Int) :=
  clauses.map (fun clause => (List.range N).map (cEntry clause))

/-- `SAT.K` (lines 296-298): clause term
`2^(-L_m) * prod_j (1 - c[m,j]*s[j])` over all `j < N`.
`nl` is `number_of_literals[m]`, `crow` is row `m` of the clause matrix. -/
def K (nl : Nat) (crow : List Int) (N : Nat) (s : List ℚ) : ℚ :=
  (1 / 2 ^ nl) *
    prodList ((List.range N).map (fun j => 1 - (crow.getD j 0 : ℚ) * s.getD j 0))

/-- `SAT.k` (lines 300-302): the same product skipping variable `i`. -/
def kmod (nl : Nat) (crow : List Int) (N : Nat) (i : Nat) (s : List ℚ) : ℚ :=
  (1 / 2 ^ nl) *
    prodList (((List.range N).filter (fun j => j ≠ i)).map
      (fun j => 1 - (crow.getD j 0 : ℚ) * s.getD j 0))

/-- One summand `a[m]*c[m,i]*(1-c[m,i]*s[i])*k(m,i,s)^2` of the spin
derivative of `rhs_type_one_py` (line 595). -/
def dsSummand (N : Nat) (nl : List Nat) (c : List (List Int)) (a s : List ℚ)
    (m i : Nat) : ℚ :=
  a.getD m 0 * ((c.getD m []).getD i 0 : ℚ) *
    (1 - ((c.getD m []).getD i 0 : ℚ) * s.getD i 0) *
    (kmod (nl.getD m 0) (c.getD m []) N i s) ^ 2

/-- The clause term of the spin derivative in `rhs_type_one_py` (line 595):
Python's `sum(2*[... for m in range(M)])` duplicates the list before
summing, hence the `++`. -/
def dsClauseTerm (N M : Nat) (nl : List Nat) (c : List (List Int))
    (a s : List ℚ) (i : Nat) : ℚ :=
  sumList (((List.range M).map (fun m => dsSummand N nl c a s m i)) ++
           ((List.range M).map (fun m => dsSummand N nl c a s m i)))

/-- `SAT.rhs_type_one_py` (lines 591-597): splits the state `y` into spins
`s = y[:N]` and auxiliaries `a = y[N:]`, and returns `ds ++ da`. -/
def rhs_type_one_py (N M : Nat) (nl : List Nat) (c : List (List Int))
    (y : List ℚ) : List ℚ :=
  let s := y.take N
  let a := y.drop N
  ((List.range N).map (fun i => dsClauseTerm N M nl c a s i)) ++
  ((List.range M).map (fun m =>
    a.getD m 0 * K (nl.getD m 0) (c.getD m []) N s))

/-- The mutable attributes of a `SAT` instance that the claims touch
(src/pySAT.py lines 129-189).  `valid_solutions` is the cached
`SolutionSet` (Python: `None` or the list of solution strings, modelled as
`List Bool` per string); `alpha` is the cached clause density (`None` or a
float); `tried_ortants`/`tried_ortant_idx` exist for rhs types 6 and 7. -/
structure SATProblem where
  number_of_variables : Nat
  number_of_clauses : Nat
  clauses : List Clause
  number_of_literals : List Nat
  c : List (List Int)
  rhs_type : Int
  valid_solutions : Option (List (List Bool))
  alpha : Option ℚ
  tried_ortants : List (List Int)
  tried_ortant_idx : Nat
  deriving DecidableEq, Repr

/-- Truth of one literal `e` under assignment `σ` exactly as tested by
`check_row` (lines 444-455) and by `compatible` (lines 350-366): a positive
literal wants `σ[e-1] = true`, a negative one wants `σ[-e-1] = false`, and
a zero literal matches nothing. -/
def litSat (σ : List Bool) (e : Int) : Bool :=
  if e > 0 then σ.getD (e - 1).toNat false
  else if e < 0 then !(σ.getD (-e - 1).toNat true)
  else false

/-- A clause is satisfied when some literal matches (`check_row`'s success
condition). -/
def clauseSat (σ : List Bool) (clause : Clause) : Bool :=
  clause.any (litSat σ)

/-- Result of the inner `check_row` of `check_solution` (lines 444-455):
`sat` models `return True`, `unsat` models falling off the loop
(Python returns `None`), `err` models `raise ValueError` on a zero
literal. -/
inductive RowResult where
  | sat : RowResult
  | unsat : RowResult
  | err : RowResult
  deriving DecidableEq, Repr

/-- `check_row` (lines 444-455): scan the literals in order; return on the
first matching literal; raise on a zero literal; fall through otherwise. -/
def check_row (row : Clause) (σ : List Bool) : RowResult :=
  match row with
  | [] => .unsat
  | e :: rest =>
    if e > 0 then
      if σ.getD (e - 1).toNat false then .sat else check_row rest σ
    else if e < 0 then
      if !(σ.getD (-e - 1).toNat true) then .sat else check_row rest σ
    else .err

/-- The clause-scanning loop of `check_solution` (lines 457-461): stop at
the first clause whose `check_row` is not `sat` (Python's
`if not check_row(...)` treats `None` as falsy and breaks). -/
def scanClauses (clauses : List Clause) (σ : List Bool) : RowResult :=
  match clauses with
  | [] => .sat
  | row :: rest =>
    match check_row row σ with
    | .sat => scanClauses rest σ
    | .unsat => .unsat
    | .err => .err

/-- The value returned (or error raised) by `SAT.check_solution`
(lines 436-469), ignoring the `set_add` side effect. -/
def check_solution_result (N : Nat) (clauses : List Clause)
    (σ : List Bool) : Except Unit Bool :=
  if σ.length ≠ N then .error ()
  else
    match scanClauses clauses σ with
    | .sat => .ok true
    | .unsat => .ok false
    | .err => .error ()

/-- `SAT.set_add` (lines 538-554) acting on the pair
`(tried_ortants, tried_ortant_idx)`.  The failed assignment is first turned
into a `±1` vector; an empty store appends unconditionally; otherwise a
vector already present is ignored; below capacity 100 the vector is
appended; at capacity it is written at the cursor, which is then advanced
with the test `idx < 100` (and wrapped to 0 otherwise).  `none` models the
`IndexError` Python raises when the write `tried_ortants[idx] = vec` is out
of bounds. -/
def setAddCore (tried : List (List Int)) (idx : Nat) (σ : List Bool) :
    Option (List (List Int) × Nat) :=
  let vec := σ.map (fun spin => if spin then (1 : Int) else -1)
  if tried.length = 0 then some (tried ++ [vec], idx)
  else if vec ∈ tried then some (tried, idx)
  else if tried.length < 100 then some (tried ++ [vec], idx)
  else if idx < tried.length then
    some (tried.set idx vec, if idx < 100 then idx + 1 else 0)
  else none

/-- `SAT.set_add` on the whole problem record. -/
def set_add (p : SATProblem) (σ : List Bool) : Option SATProblem :=
  (setAddCore p.tried_ortants p.tried_ortant_idx σ).map
    (fun ti => { p with tried_ortants := ti.1, tried_ortant_idx := ti.2 })

/-- `SAT.check_solution` (lines 436-469) including its side effect: on a
non-satisfying assignment with `rhs_type` 6 or 7 the assignment is handed
to `set_add`; the returned `Option SATProblem` is the post-call problem
state (`none` = `set_add` raised `IndexError`). -/
def check_solution_state (p : SATProblem) (σ : List Bool) :
    Except Unit (Bool × Option SATProblem) :=
  if σ.length ≠ p.number_of_variables then .error ()
  else
    match scanClauses p.clauses σ with
    | .sat => .ok (true, some p)
    | .unsat =>
      if p.rhs_type = 6 ∨ p.rhs_type = 7 then .ok (false, set_add p σ)
      else .ok (false, some p)
    | .err => .error ()

/-- The literal filter/renumbering step of `remove_variable`
(lines 311-321): keep and shift literals other than `±variable`. -/
def shiftElem (v : Int) (e : Int) : Option Int :=
  if e > 0 ∧ e > v then some (e - 1)
  else if e < 0 ∧ e < -v then some (e + 1)
  else if e ≠ v ∧ e ≠ -v then some e
  else none

/-- `SAT.remove_variable` (lines 304-332): filter/renumber every clause,
keep only clauses whose filtered length equals the recorded literal count,
then rebuild the derived fields.  The cached `alpha` is overwritten with
the new ratio (line 332), but `valid_solutions` is left untouched. -/
def remove_variable (p : SATProblem) (v : Int) : SATProblem :=
  let kept := p.clauses.enum.filterMap (fun ic =>
    let nc := ic.2.filterMap (shiftElem v)
    if nc.length = p.number_of_literals.getD ic.1 0 then
      some (nc, p.number_of_literals.getD ic.1 0)
    else none)
  let newClauses := kept.map Prod.fst
  { p with
    clauses := newClauses
    number_of_variables := p.number_of_variables - 1
    number_of_clauses := newClauses.length
    number_of_literals := kept.map Prod.snd
    c := cMatrix (p.number_of_variables - 1) newClauses
    alpha := some ((newClauses.length : ℚ) /
      ((p.number_of_variables - 1 : Nat) : ℚ)) }

/-- `SAT.harden_clause` (lines 556-578).  Solution strings of `'0'`/`'1'`
characters are modelled as `List Bool`, so the comparison
`sol[variable_idx-1] == literal_value` becomes a boolean equality with
`decide (lit > 0)`.  Returns the Python return value and the new problem
state; no cache field is touched. -/
def harden_clause (p : SATProblem) (clause_idx : Nat)
    (solutions : List (List Bool)) : Bool × SATProblem :=
  let L := p.number_of_literals.getD clause_idx 0
  let clause := p.clauses.getD clause_idx []
  let literal_satisfaction := (List.range L).map (fun k =>
    let lit := clause.getD k 0
    solutions.all (fun sol =>
      sol.getD (lit.natAbs - 1) false = decide (lit > 0)))
  if 2 ≤ literal_satisfaction.count true then
    match (List.range L).find? (fun k => literal_satisfaction.getD k false) with
    | some k =>
      let newClause := clause.set k (-(clause.getD k 0))
      (true, { p with clauses := p.clauses.set clause_idx newClause })
    | none => (false, p)
  else (false, p)

/-- The clause-splitting loop of `downconvert_4_3` (lines 390-394), with
the running index `idx` made explicit: clause number `idx` becomes
`[clause[0], clause[1], N+1+idx]` and `[clause[2], clause[3], -(N+1+idx)]`. -/
def downClausesAux (N : Nat) : Nat → List Clause → List Clause
  | _, [] => []
  | idx, clause :: rest =>
    [clause.getD 0 0, clause.getD 1 0, (N : Int) + 1 + idx] ::
    [clause.getD 2 0, clause.getD 3 0, -((N : Int) + 1 + idx)] ::
    downClausesAux N (idx + 1) rest

/-- `SAT.downconvert_4_3` (lines 385-399): replaces the clause list, grows
the variable count by the clause count, doubles the clause count, and
clears `valid_solutions`; `alpha`, `c` and `number_of_literals` are left
untouched. -/
def downconvert_4_3 (p : SATProblem) : SATProblem :=
  { p with
    clauses := downClausesAux p.number_of_variables 0 p.clauses
    number_of_variables := p.number_of_variables + p.number_of_clauses
    number_of_clauses := p.number_of_clauses + p.number_of_clauses
    valid_solutions := none }

/-- `SAT.get_alpha` (lines 430-434): recompute only when the cached value
is falsy (Python `if not self.alpha`, satisfied by `None` and by `0.0`). -/
def get_alpha (p : SATProblem) : ℚ :=
  match p.alpha with
  | none => (p.number_of_clauses : ℚ) / (p.number_of_variables : ℚ)
  | some a =>
    if a = 0 then (p.number_of_clauses : ℚ) / (p.number_of_variables : ℚ)
    else a

/-- The candidate-compatibility test `compatible` inside
`generate_planted_problem` (lines 350-366): `None` (the initial candidate)
is incompatible; otherwise every planted assignment must make some literal
of the clause true. -/
def compatible (clause : Option Clause) (sols : List (List Bool)) : Bool :=
  match clause with
  | none => false
  | some cl => sols.all (fun sol => cl.any (litSat sol))

/-- The clause-search loop `while not compatible(test_clause, sols)` of
`generate_planted_problem` (lines 377-380), modelled with an explicit
retry bound `fuel` over an arbitrary stream of sampled candidates: the
first compatible candidate among `stream 0, …, stream (fuel-1)`, or `none`
when no retry bound suffices. -/
def plantedSearch (sols : List (List Bool)) (stream : Nat → Clause) :
    Nat → Option Clause
  | 0 => none
  | fuel + 1 =>
    if compatible (some (stream 0)) sols then some (stream 0)
    else plantedSearch sols (fun n => stream (n + 1)) fuel

/-- The `exit_hypercube` event of `CTD.fast_solve` (lines 883-888).  The
translation keeps the source's control flow: the loop body returns on its
first iteration in both branches, so only the first of the first-`N`
coordinates is ever inspected; an empty spin slice falls off the loop and
returns Python `None`. -/
def exit_hypercube (N : Nat) (y : List ℚ) : Option ℚ :=
  match y.take N with
  | [] => none
  | coord :: _ => if coord < 1 then some 1 else some (-1)

/-- `exit_hypercube.terminal = True` (line 888). -/
def exit_hypercube_terminal : Bool := true

/-- The file-parsing branch of `SAT.__init__` (lines 152-171): the header
supplies `N` and `M`; each of the next `M` lines keeps its non-zero tokens
as a clause, and its literal count is the number of non-zero tokens.
`lines` are the token lists of the clause lines (header dropped). -/
def initFromFile (N M : Nat) (lines : List (List Int)) (rhs_type : Int) :
    SATProblem :=
  let clause_and := (lines.take M).map (fun line => line.filter (fun t => t ≠ 0))
  { number_of_variables := N
    number_of_clauses := M
    clauses := clause_and
    number_of_literals := clause_and.map List.length
    c := cMatrix N clause_and
    rhs_type := rhs_type
    valid_solutions := none
    alpha := some ((M : ℚ) / (N : ℚ))
    tried_ortants := []
    tried_ortant_idx := 0 }

/-- The random/planted generation branch of `SAT.__init__` (lines 174-189).
`draw m` stands for the clause sampled at loop iteration `m` of the
non-planted path; `plantedResult` stands for the return value of
`generate_planted_problem` (the source of randomness is outside the
embedding).  `number_of_clauses = int(n*alpha)+1`.  With `planted ≠ 0` the
clause list is the planted generator's result and — exactly as in the
source — `number_of_literals` keeps its initial value `[]`, since
`generate_planted_problem` never writes it. -/
def initGenerated (n : Nat) (alpha : ℚ) (literal_number : Nat)
    (rhs_type : Int) (planted : Nat) (draw : Nat → Clause)
    (plantedResult : List Clause) : SATProblem :=
  let M := (⌊(n : ℚ) * alpha⌋).toNat + 1
  let clauses := if planted ≠ 0 then plantedResult
    else (List.range M).map draw
  { number_of_variables := n
    number_of_clauses := M
    clauses := clauses
    number_of_literals := if planted ≠ 0 then []
      else (List.range M).map (fun _ => literal_number)
    c := cMatrix n clauses
    rhs_type := rhs_type
    valid_solutions := none
    alpha := some ((M : ℚ) / (n : ℚ))
    tried_ortants := []
    tried_ortant_idx := 0 }

/-- The choice of auxiliary values extending a satisfying assignment of a
4-literal problem to the downconverted 3-literal problem: the auxiliary of
clause `idx` is true exactly when neither of the clause's first two
literals is already satisfied. -/
def auxAssign (σ : List Bool) (clauses : List Clause) : List Bool :=
  clauses.map (fun cl => !(litSat σ (cl.getD 0 0) || litSat σ (cl.getD 1 0)))

/-- The length-`w` Boolean vector reading off the binary digits of `n`
(used to feed pairwise-distinct assignments to `set_add`). -/
def boolVec (w n : Nat) : List Bool :=
  (List.range w).map (fun j => n / 2 ^ j % 2 = 1)

/-- Iterate `set_add` (its `(tried_ortants, tried_ortant_idx)` core) over a
list of assignments, starting from the freshly initialised empty store
(lines 146-148); `none` once any call raises. -/
def runSetAdds (inputs : List (List Bool)) :
    Option (List (List Int) × Nat) :=
  inputs.foldl (fun st σ => st.bind (fun s => setAddCore s.1 s.2 σ))
    (some ([], 0))

/-- A 2-variable, 1-clause problem `(x1 ∨ x2)` with both caches populated
(as after calls to `all_solutions` and `get_alpha`). -/
def exProblemA : SATProblem :=
  { number_of_variables := 2
    number_of_clauses := 1
    clauses := [[1, 2]]
    number_of_literals := [2]
    c := cMatrix 2 [[1, 2]]
    rhs_type := 1
    valid_solutions := some [[false, true], [true, false], [true, true]]
    alpha := some (1 / 2)
    tried_ortants := []
    tried_ortant_idx := 0 }

/-- A 4-variable, 1-clause 4-SAT problem `(x1 ∨ x2 ∨ x3 ∨ x4)` with the
`alpha` cache populated. -/
def exProblemB : SATProblem :=
  { number_of_variables := 4
    number_of_clauses := 1
    clauses := [[1, 2, 3, 4]]
    number_of_literals := [4]
    c := cMatrix 4 [[1, 2, 3, 4]]
    rhs_type := 1
    valid_solutions := some [[true, false, false, false]]
    alpha := some (1 / 4)
    tried_ortants := []
    tried_ortant_idx := 0 }

/-- A 1-variable, 1-clause problem `(x1)` built with `rhs_type = 6`, whose
tried-ortants store already holds the `±1` image of the failed assignment
`(false)` (as after one earlier failed `check_solution` call). -/
def exProblemRec : SATProblem :=
  { number_of_variables := 1
    number_of_clauses := 1
    clauses := [[1]]
    number_of_literals := [1]
    c := cMatrix 1 [[1]]
    rhs_type := 6
    valid_solutions := none
    alpha := some 1
    tried_ortants := [[-1]]
    tried_ortant_idx := 0 }

/-- The problem of `exProblemRec` as freshly constructed: the tried-ortants
store is still empty. -/
def exProblemRec0 : SATProblem :=
  { number_of_variables := 1
    number_of_clauses := 1
    clauses := [[1]]
    number_of_literals := [1]
    c := cMatrix 1 [[1]]
    rhs_type := 6
    valid_solutions := none
    alpha := some 1
    tried_ortants := []
    tried_ortant_idx := 0 }

lemma prodList_cons (x : ℚ) (l : List ℚ) :
    prodList (x :: l) = x * prodList l := rfl

lemma sumList_cons (x : ℚ) (l : List ℚ) :
    sumList (x :: l) = x + sumList l := rfl

lemma prodList_eq_zero {l : List ℚ} (h : (0 : ℚ) ∈ l) : prodList l = 0 := by
  induction l with
  | nil => cases h
  | cons x xs ih =>
    rcases List.mem_cons.mp h with h0 | hmem
    · rw [prodList_cons, ← h0, zero_mul]
    · rw [prodList_cons, ih hmem, mul_zero]

lemma sumList_eq_zero {l : List ℚ} (h : ∀ x ∈ l, x = 0) : sumList l = 0 := by
  induction l with
  | nil => rfl
  | cons x xs ih =>
    rw [sumList_cons, h x (List.mem_cons_self x xs),
      ih (fun y hy => h y (List.mem_cons_of_mem x hy)), add_zero]

lemma K_eq_zero_of_sat {nl : Nat} {crow : List Int} {N : Nat} {s : List ℚ}
    (hsat : ∃ j < N, (crow.getD j 0 : ℚ) * s.getD j 0 = 1) :
    K nl crow N s = 0 := by
  obtain ⟨j, hjN, hj⟩ := hsat
  have hmem : (0 : ℚ) ∈ (List.range N).map
      (fun j => 1 - (crow.getD j 0 : ℚ) * s.getD j 0) := by
    refine List.mem_map.mpr ⟨j, List.mem_range.mpr hjN, ?_⟩
    rw [hj]; ring
  unfold K
  rw [prodList_eq_zero hmem, mul_zero]

lemma kmod_eq_zero_of_sat_elsewhere {nl : Nat} {crow : List Int} {N i : Nat}
    {s : List ℚ}
    (hsat : ∃ j < N, j ≠ i ∧ (crow.getD j 0 : ℚ) * s.getD j 0 = 1) :
    kmod nl crow N i s = 0 := by
  obtain ⟨j, hjN, hji, hj⟩ := hsat
  have hmem : (0 : ℚ) ∈ ((List.range N).filter (fun j => j ≠ i)).map
      (fun j => 1 - (crow.getD j 0 : ℚ) * s.getD j 0) := by
    refine List.mem_map.mpr ⟨j, ?_, ?_⟩
    · exact List.mem_filter.mpr ⟨List.mem_range.mpr hjN, by simpa using hji⟩
    · rw [hj]; ring
  unfold kmod
  rw [prodList_eq_zero hmem, mul_zero]

lemma dsSummand_eq_zero {N : Nat} {nl : List Nat} {c : List (List Int)}
    {a s : List ℚ} {m i : Nat}
    (hcval : (c.getD m []).getD i 0 = -1 ∨ (c.getD m []).getD i 0 = 0 ∨
      (c.getD m []).getD i 0 = 1)
    (hs : s.getD i 0 = 1 ∨ s.getD i 0 = -1)
    (hsat : ∃ j < N, ((c.getD m []).getD j 0 : ℚ) * s.getD j 0 = 1) :
    dsSummand N nl c a s m i = 0 := by
  rcases hcval with hc | hc | hc
  · -- c[m,i] = -1 or +1 : split on the sign product
    rcases hs with hsi | hsi
    · -- c = -1, s_i = 1 : the literal of i is falsified, some other j satisfies
      have hkm : kmod (nl.getD m 0) (c.getD m []) N i s = 0 := by
        apply kmod_eq_zero_of_sat_elsewhere
        obtain ⟨j, hjN, hj⟩ := hsat
        refine ⟨j, hjN, ?_, hj⟩
        intro hji
        rw [hji, hc, hsi] at hj
        norm_num at hj
      unfold dsSummand
      rw [hkm]
      ring
    · unfold dsSummand
      rw [hc, hsi]
      norm_num
  · unfold dsSummand
    rw [hc]
    norm_num
  · rcases hs with hsi | hsi
    · unfold dsSummand
      rw [hc, hsi]
      norm_num
    · have hkm : kmod (nl.getD m 0) (c.getD m []) N i s = 0 := by
        apply kmod_eq_zero_of_sat_elsewhere
        obtain ⟨j, hjN, hj⟩ := hsat
        refine ⟨j, hjN, ?_, hj⟩
        intro hji
        rw [hji, hc, hsi] at hj
        norm_num at hj
      unfold dsSummand
      rw [hkm]
      ring

/-- C1: at a state `y` whose spins `s = y[:N]` are exactly `±1` and where
every clause is satisfied by `sign(s)` (some literal of each clause-matrix
row agrees in sign with `s`), the clause term `K(m,s)` vanishes for every
clause `m`, the clause term of the spin derivative of `rhs_type_one_py`
vanishes for every variable `i`, and the whole derivative vector returned
by `rhs_type_one_py` is zero — the state is a fixed point. -/
theorem rhs_type_one_fixed_point
    (N M : Nat) (nl : List Nat) (c : List (List Int)) (y : List ℚ)
    (hcval : ∀ m i, (c.getD m []).getD i 0 = -1 ∨
      (c.getD m []).getD i 0 = 0 ∨ (c.getD m []).getD i 0 = 1)
    (hs : ∀ i < N, (y.take N).getD i 0 = 1 ∨ (y.take N).getD i 0 = -1)
    (hsat : ∀ m < M, ∃ j < N,
      ((c.getD m []).getD j 0 : ℚ) * (y.take N).getD j 0 = 1) :
    (∀ m < M, K (nl.getD m 0) (c.getD m []) N (y.take N) = 0) ∧
    (∀ i < N, dsClauseTerm N M nl c (y.drop N) (y.take N) i = 0) ∧
    rhs_type_one_py N M nl c y = List.replicate (N + M) 0 := by
  have hK : ∀ m < M, K (nl.getD m 0) (c.getD m []) N (y.take N) = 0 :=
    fun m hm => K_eq_zero_of_sat (hsat m hm)
  have hds : ∀ i < N, dsClauseTerm N M nl c (y.drop N) (y.take N) i = 0 := by
    intro i hi
    unfold dsClauseTerm
    apply sumList_eq_zero
    intro x hx
    rcases List.mem_append.mp hx with hx' | hx' <;>
    · obtain ⟨m, hm, hxm⟩ := List.mem_map.mp hx'
      rw [← hxm]
      exact dsSummand_eq_zero (hcval m i) (hs i hi)
        (hsat m (List.mem_range.mp hm))
  refine ⟨hK, hds, ?_⟩
  unfold rhs_type_one_py
  dsimp only
  rw [List.replicate_add]
  congr 1
  · apply List.eq_replicate_iff.mpr
    refine ⟨by simp, ?_⟩
    intro b hb
    obtain ⟨i, hi, hbi⟩ := List.mem_map.mp hb
    rw [← hbi]
    exact hds i (List.mem_range.mp hi)
  · apply List.eq_replicate_iff.mpr
    refine ⟨by simp, ?_⟩
    intro b hb
    obtain ⟨m, hm, hbm⟩ := List.mem_map.mp hb
    rw [← hbm, hK m (List.mem_range.mp hm), mul_zero]

/-- Witness for `rhs_type_one_fixed_point`: the 2-variable, 1-clause problem
with clause `(x1 ∨ x2)`, state `s = (1,1)`, `a = (5)`. -/
theorem rhs_type_one_fixed_point_witness :
    rhs_type_one_py 2 1 [2] [[1, 1]] [1, 1, 5] = List.replicate 3 0 :=
  (rhs_type_one_fixed_point 2 1 [2] [[1, 1]] [1, 1, 5]
    (by
      intro m i
      match m with
      | 0 =>
        match i with
        | 0 => right; right; rfl
        | 1 => right; right; rfl
        | (n + 2) => right; left; rfl
      | (k + 1) => right; left; rfl)
    (by decide)
    (by
      intro m hm
      interval_cases m
      exact ⟨0, by norm_num, by norm_num [List.getD]⟩)).2.2

/-- C2 (code bug): the clause mutators do not keep the caches consistent.
On the concrete problem `(x1 ∨ x2)` with both caches populated,
`remove_variable` keeps the stale cached `SolutionSet`; `harden_clause`
really mutates the clause (it returns `true` and flips the first literal)
yet keeps the stale cached `SolutionSet`; and on the 4-literal problem
`downconvert_4_3` does clear the `SolutionSet` but keeps the cached
`alpha = 1/4` although the mutated problem's clause/variable ratio is
`2/5`. -/
theorem mutators_leave_caches_stale :
    (remove_variable exProblemA 1).valid_solutions =
      some [[false, true], [true, false], [true, true]] ∧
    (harden_clause exProblemA 0 [[true, true]]).1 = true ∧
    (harden_clause exProblemA 0 [[true, true]]).2.clauses = [[-1, 2]] ∧
    (harden_clause exProblemA 0 [[true, true]]).2.valid_solutions =
      some [[false, true], [true, false], [true, true]] ∧
    (harden_clause exProblemA 0 [[true, true]]).2.alpha = some (1 / 2) ∧
    (downconvert_4_3 exProblemB).valid_solutions = none ∧
    (downconvert_4_3 exProblemB).alpha = some (1 / 4) ∧
    ((downconvert_4_3 exProblemB).number_of_clauses : ℚ) /
      ((downconvert_4_3 exProblemB).number_of_variables : ℚ) = 2 / 5 ∧
    (1 / 4 : ℚ) ≠ 2 / 5 := by
  refine ⟨rfl, rfl, rfl, rfl, rfl, rfl, rfl, ?_, by norm_num⟩
  norm_num [downconvert_4_3, exProblemB]

/-- C4 (code bug): the planted-generation construction path (the default:
`SAT(None, None)` has `n = 15`, `alpha = 4.264`, `planted = 3`) produces
`number_of_clauses = int(15·4.264)+1 = 64` but leaves `number_of_literals`
at its initial value `[]`, so the literal-count sequence does not have one
entry per clause. -/
theorem planted_generation_leaves_literal_counts_empty :
    (initGenerated 15 (4264 / 1000) 3 1 3 (fun _ => [1])
      (List.replicate 64 [1, 2, 3])).number_of_clauses = 64 ∧
    (initGenerated 15 (4264 / 1000) 3 1 3 (fun _ => [1])
      (List.replicate 64 [1, 2, 3])).number_of_literals = [] ∧
    (initGenerated 15 (4264 / 1000) 3 1 3 (fun _ => [1])
      (List.replicate 64 [1, 2, 3])).clauses.length = 64 := by
  have hfl : ⌊(15 : ℚ) * (4264 / 1000)⌋ = 63 := by
    rw [Int.floor_eq_iff]; norm_num
  refine ⟨?_, rfl, rfl⟩
  simp only [initGenerated, Nat.cast_ofNat, hfl]
  rfl

/-- C5 (code bug): the `return -1.0` of `exit_hypercube` sits inside the
loop body, so only the first spin coordinate is ever inspected.  At
`N = 2`, `y = (2, 0)` the second coordinate `0` is below `1`, yet the
event function returns `-1.0 < 0` and does not fire; the event is marked
terminal. -/
theorem exit_hypercube_misses_second_coordinate :
    exit_hypercube 2 [2, 0] = some (-1) ∧
    ([2, 0] : List ℚ).getD 1 0 < 1 ∧
    (-1 : ℚ) < 0 ∧
    exit_hypercube_terminal = true := by
  refine ⟨?_, by norm_num, by norm_num, rfl⟩
  unfold exit_hypercube
  norm_num

set_option maxRecDepth 10000 in
/-- C9 (code bug): feeding 201 pairwise-distinct failed assignments (the
8-bit binary vectors of 0..200) to `set_add` starting from the empty store
makes the 201st call write out of bounds: after 200 distinct insertions
the store holds 100 entries but the cursor has been advanced to 100 (the
post-write test is `idx < 100` instead of `idx < 99`), so the next write
`tried_ortants[100]` raises `IndexError` (modelled by `none`). -/
theorem set_add_cursor_overflow :
    (runSetAdds ((List.range 200).map (boolVec 8))).map
      (fun s => (s.1.length, s.2)) = some (100, 100) ∧
    runSetAdds ((List.range 201).map (boolVec 8)) = none := by
  exact ⟨rfl, rfl⟩

lemma check_row_cons (e : Int) (rest : Clause) (σ : List Bool) :
    check_row (e :: rest) σ =
      if e > 0 then
        (if σ.getD (e - 1).toNat false then RowResult.sat
         else check_row rest σ)
      else if e < 0 then
        (if !(σ.getD (-e - 1).toNat true) then RowResult.sat
         else check_row rest σ)
      else RowResult.err := rfl

lemma check_row_eq_of_ne_zero {row : Clause} {σ : List Bool}
    (h : ∀ e ∈ row, e ≠ 0) :
    check_row row σ = if clauseSat σ row then .sat else .unsat := by
  induction row with
  | nil => rfl
  | cons e rest ih =>
    have he := h e (List.mem_cons_self e rest)
    have hrest := ih (fun x hx => h x (List.mem_cons_of_mem e hx))
    have hcons : clauseSat σ (e :: rest) = (litSat σ e || clauseSat σ rest) :=
      rfl
    by_cases hpos : e > 0
    · rw [check_row_cons, if_pos hpos]
      by_cases hval : σ.getD (e - 1).toNat false = true
      · have hlit : litSat σ e = true := by rw [litSat, if_pos hpos, hval]
        rw [if_pos hval, hcons, hlit]
        rfl
      · have hvalf : σ.getD (e - 1).toNat false = false := by
          cases hb : σ.getD (e - 1).toNat false
          · rfl
          · exact absurd hb hval
        have hlit : litSat σ e = false := by rw [litSat, if_pos hpos, hvalf]
        rw [if_neg hval, hcons, hlit, hrest]
        cases hcs : clauseSat σ rest <;> rfl
    · have hneg : e < 0 := by omega
      rw [check_row_cons, if_neg hpos, if_pos hneg]
      by_cases hval : σ.getD (-e - 1).toNat true = true
      · have hlit : litSat σ e = false := by
          rw [litSat, if_neg hpos, if_pos hneg, hval]
          rfl
        have hnot : (!(σ.getD (-e - 1).toNat true)) = false := by
          rw [hval]
          rfl
        simp only [hnot, Bool.false_eq_true, if_false]
        rw [hrest, hcons, hlit]
        cases hcs : clauseSat σ rest <;> rfl
      · have hvalf : σ.getD (-e - 1).toNat true = false := by
          cases hb : σ.getD (-e - 1).toNat true
          · rfl
          · exact absurd hb hval
        have hlit : litSat σ e = true := by
          rw [litSat, if_neg hpos, if_pos hneg, hvalf]
          rfl
        have hnot : (!(σ.getD (-e - 1).toNat true)) = true := by
          rw [hvalf]
          rfl
        simp only [hnot, if_true]
        rw [hcons, hlit]
        rfl

lemma scanClauses_cons (row : Clause) (rest : List Clause) (σ : List Bool) :
    scanClauses (row :: rest) σ =
      match check_row row σ with
      | .sat => scanClauses rest σ
      | .unsat => .unsat
      | .err => .err := rfl

lemma scanClauses_eq_of_ne_zero {clauses : List Clause} {σ : List Bool}
    (h : ∀ cl ∈ clauses, ∀ e ∈ cl, e ≠ 0) :
    scanClauses clauses σ =
      if clauses.all (fun cl => clauseSat σ cl) then .sat else .unsat := by
  induction clauses with
  | nil => rfl
  | cons row rest ih =>
    have hrow := check_row_eq_of_ne_zero (σ := σ)
      (h row (List.mem_cons_self row rest))
    have hrest := ih (fun cl hcl => h cl (List.mem_cons_of_mem row hcl))
    have hall : (row :: rest).all (fun cl => clauseSat σ cl) =
        (clauseSat σ row && rest.all (fun cl => clauseSat σ cl)) := rfl
    rw [scanClauses_cons, hrow, hall]
    cases hsat : clauseSat σ row
    · rfl
    · rw [hrest]
      cases hr : rest.all (fun cl => clauseSat σ cl) <;> rfl

/-- C3: any clause accepted by the `compatible` filter of
`generate_planted_problem` against the planted assignments is satisfied by
each of them; hence for a planted problem — whose clauses are all accepted
by `compatible` and whose literals are non-zero variable indices —
`check_solution` returns `True` on every planted assignment. -/
theorem planted_assignments_satisfy
    (N : Nat) (clauses : List Clause) (sols : List (List Bool))
    (hshape : ∀ cl ∈ clauses, ∀ e ∈ cl, e ≠ 0)
    (hcompat : ∀ cl ∈ clauses, compatible (some cl) sols = true) :
    ∀ sol ∈ sols, sol.length = N →
      check_solution_result N clauses sol = .ok true := by
  intro sol hsol hlen
  unfold check_solution_result
  rw [if_neg (by simp [hlen])]
  have hall : clauses.all (fun cl => clauseSat sol cl) = true := by
    rw [List.all_eq_true]
    intro cl hcl
    have hc := hcompat cl hcl
    unfold compatible at hc
    rw [List.all_eq_true] at hc
    exact hc sol hsol
  rw [scanClauses_eq_of_ne_zero hshape, if_pos hall]

/-- Witness for `planted_assignments_satisfy`: the clause `(x1 ∨ ¬x2)` is
compatible with the two planted assignments `(T,T)` and `(F,F)`, and
`check_solution` accepts both. -/
theorem planted_assignments_satisfy_witness :
    check_solution_result 2 [[1, -2]] [true, true] = .ok true ∧
    check_solution_result 2 [[1, -2]] [false, false] = .ok true := by
  have h := planted_assignments_satisfy 2 [[1, -2]]
    [[true, true], [false, false]] (by decide) (by decide)
  exact ⟨h [true, true] (by decide) (by decide),
    h [false, false] (by decide) (by decide)⟩

lemma check_row_cons_of_litSat_true {e : Int} {rest : Clause} {σ : List Bool}
    (he : e ≠ 0) (hl : litSat σ e = true) :
    check_row (e :: rest) σ = .sat := by
  by_cases hpos : e > 0
  · rw [litSat, if_pos hpos] at hl
    rw [check_row_cons, if_pos hpos, if_pos hl]
  · have hneg : e < 0 := by omega
    rw [litSat, if_neg hpos, if_pos hneg] at hl
    rw [check_row_cons, if_neg hpos, if_pos hneg, if_pos hl]

lemma check_row_cons_of_litSat_false {e : Int} {rest : Clause} {σ : List Bool}
    (he : e ≠ 0) (hl : litSat σ e = false) :
    check_row (e :: rest) σ = check_row rest σ := by
  by_cases hpos : e > 0
  · rw [litSat, if_pos hpos] at hl
    rw [check_row_cons, if_pos hpos,
      if_neg (fun hc => Bool.false_ne_true (hl.symm.trans hc))]
  · have hneg : e < 0 := by omega
    rw [litSat, if_neg hpos, if_pos hneg] at hl
    rw [check_row_cons, if_neg hpos, if_pos hneg,
      if_neg (fun hc => Bool.false_ne_true (hl.symm.trans hc))]

lemma check_row_cons_zero (rest : Clause) (σ : List Bool) :
    check_row (0 :: rest) σ = .err := rfl

lemma check_row_sat_unsat (row : Clause) (σ : List Bool) :
    (check_row row σ = .sat → clauseSat σ row = true) ∧
    (check_row row σ = .unsat → clauseSat σ row = false) := by
  induction row with
  | nil => exact ⟨fun h => RowResult.noConfusion h, fun _ => rfl⟩
  | cons e rest ih =>
    have hcons : clauseSat σ (e :: rest) = (litSat σ e || clauseSat σ rest) :=
      rfl
    by_cases he : e = 0
    · rw [he, check_row_cons_zero]
      exact ⟨fun h => RowResult.noConfusion h, fun h => RowResult.noConfusion h⟩
    · cases hl : litSat σ e
      · rw [check_row_cons_of_litSat_false he hl, hcons, hl]
        refine ⟨fun h => ?_, fun h => ?_⟩
        · rw [Bool.false_or]
          exact ih.1 h
        · rw [Bool.false_or]
          exact ih.2 h
      · rw [check_row_cons_of_litSat_true he hl, hcons, hl]
        exact ⟨fun _ => rfl, fun h => RowResult.noConfusion h⟩

lemma check_row_err_iff (row : Clause) (σ : List Bool) :
    check_row row σ = .err ↔
      ∃ pre post, row = pre ++ 0 :: post ∧ ∀ e ∈ pre, litSat σ e = false := by
  induction row with
  | nil =>
    constructor
    · intro h
      exact RowResult.noConfusion h
    · rintro ⟨pre, post, hsplit, _⟩
      exact absurd hsplit (by simp)
  | cons e rest ih =>
    by_cases he : e = 0
    · rw [he, check_row_cons_zero]
      constructor
      · intro _
        exact ⟨[], rest, rfl, fun x hx => absurd hx (List.not_mem_nil x)⟩
      · intro _
        rfl
    · cases hl : litSat σ e
      · rw [check_row_cons_of_litSat_false he hl, ih]
        constructor
        · rintro ⟨pre, post, hsplit, hfalse⟩
          refine ⟨e :: pre, post, by rw [hsplit]; rfl, ?_⟩
          intro x hx
          rcases List.mem_cons.mp hx with hx | hx
          · rw [hx]
            exact hl
          · exact hfalse x hx
        · rintro ⟨pre, post, hsplit, hfalse⟩
          cases pre with
          | nil =>
            simp only [List.nil_append, List.cons.injEq] at hsplit
            exact absurd hsplit.1 he
          | cons p pre' =>
            simp only [List.cons_append, List.cons.injEq] at hsplit
            exact ⟨pre', post, hsplit.2,
              fun x hx => hfalse x (List.mem_cons_of_mem p hx)⟩
      · rw [check_row_cons_of_litSat_true he hl]
        constructor
        · intro h
          exact RowResult.noConfusion h
        · rintro ⟨pre, post, hsplit, hfalse⟩
          cases pre with
          | nil =>
            simp only [List.nil_append, List.cons.injEq] at hsplit
            exact absurd hsplit.1 he
          | cons p pre' =>
            simp only [List.cons_append, List.cons.injEq] at hsplit
            have hp := hfalse p (List.mem_cons_self p pre')
            rw [← hsplit.1] at hp
            exact absurd (hl.symm.trans hp) (by decide)

lemma scanClauses_sat_iff (clauses : List Clause) (σ : List Bool) :
    scanClauses clauses σ = .sat ↔ ∀ cl ∈ clauses, check_row cl σ = .sat := by
  induction clauses with
  | nil => simp [scanClauses]
  | cons row rest ih =>
    rw [scanClauses_cons]
    cases hcr : check_row row σ
    · rw [ih]
      simp [List.forall_mem_cons, hcr]
    · simp [List.forall_mem_cons, hcr]
    · simp [List.forall_mem_cons, hcr]

lemma scanClauses_stop_iff (clauses : List Clause) (σ : List Bool)
    (res : RowResult) (hres : res ≠ .sat) :
    scanClauses clauses σ = res ↔
      ∃ pre row post, clauses = pre ++ row :: post ∧
        (∀ r ∈ pre, check_row r σ = .sat) ∧ check_row row σ = res := by
  induction clauses with
  | nil =>
    constructor
    · intro h
      exact absurd h.symm hres
    · rintro ⟨pre, row, post, hsplit, -, -⟩
      exact absurd hsplit (by simp)
  | cons row0 rest ih =>
    rw [scanClauses_cons]
    cases hcr : check_row row0 σ
    case sat =>
      rw [ih]
      constructor
      · rintro ⟨pre, row, post, hsplit, hpre, hrow⟩
        refine ⟨row0 :: pre, row, post, by rw [hsplit]; rfl, ?_, hrow⟩
        intro r hr
        rcases List.mem_cons.mp hr with hr | hr
        · rw [hr]
          exact hcr
        · exact hpre r hr
      · rintro ⟨pre, row, post, hsplit, hpre, hrow⟩
        cases pre with
        | nil =>
          simp only [List.nil_append, List.cons.injEq] at hsplit
          rw [← hsplit.1] at hrow
          exact absurd (hrow.symm.trans hcr) hres
        | cons p pre' =>
          simp only [List.cons_append, List.cons.injEq] at hsplit
          exact ⟨pre', row, post, hsplit.2,
            fun r hr => hpre r (List.mem_cons_of_mem p hr), hrow⟩
    case unsat =>
      constructor
      · intro h
        exact ⟨[], row0, rest, rfl,
          fun r hr => absurd hr (List.not_mem_nil r), h ▸ hcr⟩
      · rintro ⟨pre, row, post, hsplit, hpre, hrow⟩
        cases pre with
        | nil =>
          simp only [List.nil_append, List.cons.injEq] at hsplit
          rw [← hsplit.1] at hrow
          exact hcr.symm.trans hrow
        | cons p pre' =>
          simp only [List.cons_append, List.cons.injEq] at hsplit
          have hp := hpre p (List.mem_cons_self p pre')
          rw [← hsplit.1] at hp
          exact absurd (hcr.symm.trans hp) (by decide)
    case err =>
      constructor
      · intro h
        exact ⟨[], row0, rest, rfl,
          fun r hr => absurd hr (List.not_mem_nil r), h ▸ hcr⟩
      · rintro ⟨pre, row, post, hsplit, hpre, hrow⟩
        cases pre with
        | nil =>
          simp only [List.nil_append, List.cons.injEq] at hsplit
          rw [← hsplit.1] at hrow
          exact hcr.symm.trans hrow
        | cons p pre' =>
          simp only [List.cons_append, List.cons.injEq] at hsplit
          have hp := hpre p (List.mem_cons_self p pre')
          rw [← hsplit.1] at hp
          exact absurd (hcr.symm.trans hp) (by decide)

/-- C7 counterexample: the clause `[1, 0]` contains a literal with variable
index `0`, yet `check_solution` on the assignment `(true)` returns `True`
without raising: the scan of the clause returns at the satisfied literal
`1` before ever reaching the zero literal. -/
theorem check_solution_zero_literal_no_error :
    (0 : Int) ∈ ([1, 0] : Clause) ∧
    check_solution_result 1 [[1, 0]] [true] = .ok true := by
  exact ⟨by decide, rfl⟩

/-- C7 (amended): `check_solution` raises exactly when the assignment
length differs from `N`, or when — all earlier clauses having been accepted
— the scan of some clause reaches a zero literal with no matching literal
before it; and a non-raising call returns `True` exactly when every clause
has at least one literal whose expected truth value matches the
assignment. -/
theorem check_solution_error_value_characterization
    (N : Nat) (clauses : List Clause) (σ : List Bool) :
    (check_solution_result N clauses σ = .error () ↔
      σ.length ≠ N ∨
        ∃ pre row post, clauses = pre ++ row :: post ∧
          (∀ r ∈ pre, check_row r σ = .sat) ∧
          ∃ lits rest, row = lits ++ 0 :: rest ∧
            ∀ e ∈ lits, litSat σ e = false) ∧
    (check_solution_result N clauses σ ≠ .error () →
      (check_solution_result N clauses σ = .ok true ↔
        σ.length = N ∧ ∀ cl ∈ clauses, clauseSat σ cl = true)) := by
  constructor
  · by_cases hlen : σ.length ≠ N
    · rw [check_solution_result, if_pos hlen]
      simp [hlen]
    · rw [check_solution_result, if_neg hlen]
      constructor
      · intro h
        cases hscan : scanClauses clauses σ
        · rw [hscan] at h
          exact Except.noConfusion h
        · rw [hscan] at h
          exact Except.noConfusion h
        · obtain ⟨pre, row, post, hsplit, hpre, hrow⟩ :=
            (scanClauses_stop_iff clauses σ .err (by decide)).mp hscan
          obtain ⟨lits, rest, hrowsplit, hfalse⟩ :=
            (check_row_err_iff row σ).mp hrow
          exact Or.inr ⟨pre, row, post, hsplit, hpre, lits, rest,
            hrowsplit, hfalse⟩
      · intro h
        rcases h with h | ⟨pre, row, post, hsplit, hpre, lits, rest,
          hrowsplit, hfalse⟩
        · exact absurd h hlen
        · have herr : check_row row σ = .err :=
            (check_row_err_iff row σ).mpr ⟨lits, rest, hrowsplit, hfalse⟩
          have hscan : scanClauses clauses σ = .err :=
            (scanClauses_stop_iff clauses σ .err (by decide)).mpr
              ⟨pre, row, post, hsplit, hpre, herr⟩
          rw [hscan]
  · intro hne
    by_cases hlen : σ.length ≠ N
    · rw [check_solution_result, if_pos hlen] at hne
      exact absurd rfl hne
    · rw [check_solution_result, if_neg hlen] at hne ⊢
      push_neg at hlen
      cases hscan : scanClauses clauses σ
      · constructor
        · intro _
          refine ⟨hlen, fun cl hcl => ?_⟩
          exact (check_row_sat_unsat cl σ).1
            ((scanClauses_sat_iff clauses σ).mp hscan cl hcl)
        · intro _
          rfl
      · constructor
        · intro h
          injection h with h'
          exact Bool.noConfusion h'
        · rintro ⟨-, hall⟩
          obtain ⟨pre, row, post, hsplit, -, hrow⟩ :=
            (scanClauses_stop_iff clauses σ .unsat (by decide)).mp hscan
          have hfalse := (check_row_sat_unsat row σ).2 hrow
          have htrue : clauseSat σ row = true := by
            refine hall row ?_
            rw [hsplit]
            exact List.mem_append_right pre (List.mem_cons_self row post)
          rw [htrue] at hfalse
          exact Bool.noConfusion hfalse
      · rw [hscan] at hne
        exact absurd rfl hne

/-- Witness for `check_solution_error_value_characterization`: a reached
zero literal raises, and a satisfied 1-clause problem returns `True`. -/
theorem check_solution_characterization_witness :
    check_solution_result 1 [[0, 1]] [true] = .error () ∧
    check_solution_result 1 [[1]] [true] = .ok true := by
  constructor
  · exact (check_solution_error_value_characterization 1 [[0, 1]] [true]).1.mpr
      (Or.inr ⟨[], [0, 1], [], rfl, fun r hr => absurd hr (List.not_mem_nil r),
        [], [1], rfl, fun e he => absurd he (List.not_mem_nil e)⟩)
  · exact ((check_solution_error_value_characterization 1 [[1]] [true]).2
      (fun h => Except.noConfusion h)).mpr ⟨rfl, by decide⟩

/-- C8 (code bug): the clause-search loop of `generate_planted_problem` has
no retry bound.  With one variable, clause length 1 and the two planted
assignments `(F)` and `(T)` — a positive-probability draw of the random
planted matrix — every candidate clause the sampler can produce (`[1]` or
`[-1]`) is incompatible with one of the two assignments, so no retry bound
`fuel` ever makes the search succeed: the source's `while` loop runs
forever instead of reporting a failure. -/
theorem planted_search_never_terminates
    (stream : Nat → Clause) (fuel : Nat)
    (hshape : ∀ n, stream n = [1] ∨ stream n = [-1]) :
    plantedSearch [[false], [true]] stream fuel = none := by
  induction fuel generalizing stream with
  | zero => rfl
  | succ fuel ih =>
    have h0 : compatible (some (stream 0)) [[false], [true]] = false := by
      rcases hshape 0 with h | h <;> rw [h] <;> rfl
    rw [plantedSearch]
    simp only [h0, Bool.false_eq_true, if_false]
    exact ih (fun n => stream (n + 1)) (fun n => hshape (n + 1))

/-- Witness for `planted_search_never_terminates`: the constant stream of
candidate clauses `[1]` is never accepted within 5 retries. -/
theorem planted_search_never_terminates_witness :
    plantedSearch [[false], [true]] (fun _ => [1]) 5 = none :=
  planted_search_never_terminates (fun _ => [1]) 5 (fun _ => Or.inl rfl)

/-- C10 counterexample: on the `rhs_type = 6` problem `exProblemRec`, whose
tried-ortants store already holds `(-1)`, the failed check of the
assignment `(false)` does not append anything: `set_add` finds the vector
already present and returns the store unchanged (still one entry), whereas
the claim says every failed check appends the assignment. -/
theorem check_solution_duplicate_not_appended :
    check_solution_state exProblemRec [false] =
      .ok (false, some exProblemRec) ∧
    exProblemRec.tried_ortants = [[-1]] := ⟨rfl, rfl⟩

/-- C10 (amended): for `rhs_type` 6 or 7, a `check_solution` call on a
non-satisfying assignment hands the assignment to `set_add`, which appends
its `±1` vector to `tried_ortants` whenever it is not already stored and
the store is below capacity (and leaves the store unchanged on a
duplicate); for every other `rhs_type` a non-raising `check_solution` call
returns the problem state unchanged. -/
theorem check_solution_effect (p : SATProblem) (σ : List Bool)
    (hlen : σ.length = p.number_of_variables) :
    ((p.rhs_type = 6 ∨ p.rhs_type = 7) → scanClauses p.clauses σ = .unsat →
      check_solution_state p σ = .ok (false, set_add p σ)) ∧
    ((p.rhs_type = 6 ∨ p.rhs_type = 7) → scanClauses p.clauses σ = .unsat →
      (σ.map (fun spin => if spin then (1 : Int) else -1)) ∉ p.tried_ortants →
      p.tried_ortants.length < 100 →
      set_add p σ = some { p with tried_ortants := p.tried_ortants ++
        [σ.map (fun spin => if spin then (1 : Int) else -1)] }) ∧
    (¬(p.rhs_type = 6 ∨ p.rhs_type = 7) →
      ∀ b q, check_solution_state p σ = .ok (b, q) → q = some p) := by
  refine ⟨?_, ?_, ?_⟩
  · intro h67 hscan
    rw [check_solution_state, if_neg (by rw [hlen]; exact fun h => h rfl),
      hscan, if_pos h67]
  · intro _ _ hnotmem hcap
    rw [set_add, setAddCore]
    by_cases hz : p.tried_ortants.length = 0
    · rw [if_pos hz]
      rfl
    · rw [if_neg hz, if_neg hnotmem, if_pos hcap]
      rfl
  · intro h67 b q hok
    rw [check_solution_state, if_neg (by rw [hlen]; exact fun h => h rfl)]
      at hok
    cases hscan : scanClauses p.clauses σ
    · rw [hscan] at hok
      injection hok with hok'
      exact (congrArg Prod.snd hok').symm
    · rw [hscan, if_neg h67] at hok
      injection hok with hok'
      exact (congrArg Prod.snd hok').symm
    · rw [hscan] at hok
      exact Except.noConfusion hok

/-- Witness for `check_solution_effect`: on the freshly constructed
`rhs_type = 6` problem `exProblemRec0` the failed check of `(false)`
routes through `set_add`, which appends the vector `(-1)` to the empty
store. -/
theorem check_solution_effect_witness :
    check_solution_state exProblemRec0 [false] =
      .ok (false, set_add exProblemRec0 [false]) ∧
    set_add exProblemRec0 [false] =
      some { exProblemRec0 with tried_ortants := [[-1]] } := by
  have h := check_solution_effect exProblemRec0 [false] rfl
  refine ⟨h.1 (Or.inl rfl) rfl, ?_⟩
  exact h.2.1 (Or.inl rfl) rfl (by decide) (by decide)

lemma length_four_elim {α : Type} {l : List α} (h : l.length = 4) :
    ∃ a b c d, l = [a, b, c, d] := by
  rcases l with - | ⟨a, - | ⟨b, - | ⟨c, - | ⟨d, - | ⟨e, t⟩⟩⟩⟩⟩
  · simp at h
  · simp at h
  · simp at h
  · simp at h
  · exact ⟨a, b, c, d, rfl⟩
  · simp [List.length_cons] at h

lemma litSat_append_left {σ τ : List Bool} {e : Int}
    (he : e ≠ 0) (hb : e.natAbs ≤ σ.length) :
    litSat (σ ++ τ) e = litSat σ e := by
  by_cases hpos : e > 0
  · have hidx : (e - 1).toNat < σ.length := by omega
    rw [litSat, litSat, if_pos hpos, if_pos hpos,
      List.getD_append σ τ false _ hidx]
  · have hneg : e < 0 := by omega
    have hidx : (-e - 1).toNat < σ.length := by omega
    rw [litSat, litSat, if_neg hpos, if_neg hpos, if_pos hneg, if_pos hneg,
      List.getD_append σ τ true _ hidx]

lemma litSat_aux_pos {σ : List Bool} {N idx : Nat} (hσ : σ.length = N)
    (auxPre : List Bool) (a : Bool) (tail : List Bool)
    (hpre : auxPre.length = idx) :
    litSat (σ ++ (auxPre ++ a :: tail)) ((N : Int) + 1 + idx) = a := by
  have hpos : ((N : Int) + 1 + idx) > 0 := by omega
  have hidx : (((N : Int) + 1 + idx) - 1).toNat = N + idx := by omega
  rw [litSat, if_pos hpos, hidx,
    List.getD_append_right σ _ false _ (by omega), hσ]
  rw [show N + idx - N = idx from by omega,
    List.getD_append_right auxPre _ false _ (by omega), hpre]
  simp

lemma litSat_aux_neg {σ : List Bool} {N idx : Nat} (hσ : σ.length = N)
    (auxPre : List Bool) (a : Bool) (tail : List Bool)
    (hpre : auxPre.length = idx) :
    litSat (σ ++ (auxPre ++ a :: tail)) (-((N : Int) + 1 + idx)) = !a := by
  have hpos : ¬ (-((N : Int) + 1 + idx) > 0) := by omega
  have hneg : -((N : Int) + 1 + idx) < 0 := by omega
  have hidx : (-(-((N : Int) + 1 + idx)) - 1).toNat = N + idx := by omega
  rw [litSat, if_neg hpos, if_pos hneg, hidx,
    List.getD_append_right σ _ true _ (by omega), hσ]
  rw [show N + idx - N = idx from by omega,
    List.getD_append_right auxPre _ true _ (by omega), hpre]
  simp

lemma downconvert_clauses_sat (σ : List Bool) (N : Nat) (hσ : σ.length = N) :
    ∀ (cls : List Clause) (idx : Nat) (auxPre : List Bool),
      auxPre.length = idx →
      (∀ cl ∈ cls, cl.length = 4) →
      (∀ cl ∈ cls, ∀ e ∈ cl, e ≠ 0 ∧ e.natAbs ≤ N) →
      (∀ cl ∈ cls, clauseSat σ cl = true) →
      ∀ cl ∈ downClausesAux N idx cls,
        clauseSat (σ ++ (auxPre ++ auxAssign σ cls)) cl = true := by
  intro cls
  induction cls with
  | nil =>
    intro idx auxPre _ _ _ _ cl hcl
    exact absurd hcl (List.not_mem_nil cl)
  | cons clause rest ih =>
    intro idx auxPre hpre hlen4 hshape hsat cl hcl
    obtain ⟨c0, c1, c2, c3, rfl⟩ :=
      length_four_elim (hlen4 clause (List.mem_cons_self clause rest))
    have hsh := hshape _ (List.mem_cons_self _ rest)
    have hs0 := hsh c0 (by simp)
    have hs1 := hsh c1 (by simp)
    have hs2 := hsh c2 (by simp)
    have hs3 := hsh c3 (by simp)
    have hσb : σ.length = N := hσ
    -- the auxiliary value chosen for this clause
    have hauxdef : auxAssign σ ([c0, c1, c2, c3] :: rest) =
        (!(litSat σ c0 || litSat σ c1)) :: auxAssign σ rest := rfl
    rw [hauxdef]
    have hdown : downClausesAux N idx ([c0, c1, c2, c3] :: rest) =
        [c0, c1, (N : Int) + 1 + idx] ::
        [c2, c3, -((N : Int) + 1 + idx)] ::
        downClausesAux N (idx + 1) rest := rfl
    rw [hdown] at hcl
    rcases List.mem_cons.mp hcl with rfl | hcl
    · -- first produced clause [c0, c1, aux]
      have h0 := litSat_append_left (τ := auxPre ++
        (!(litSat σ c0 || litSat σ c1)) :: auxAssign σ rest) hs0.1
        (hs0.2.trans_eq hσ.symm)
      have h1 := litSat_append_left (τ := auxPre ++
        (!(litSat σ c0 || litSat σ c1)) :: auxAssign σ rest) hs1.1
        (hs1.2.trans_eq hσ.symm)
      have ha := litSat_aux_pos hσ auxPre (!(litSat σ c0 || litSat σ c1))
        (auxAssign σ rest) hpre
      simp only [clauseSat, List.any_cons, List.any_nil, Bool.or_false]
      rw [h0, h1, ha]
      cases litSat σ c0 <;> cases litSat σ c1 <;> rfl
    rcases List.mem_cons.mp hcl with rfl | hcl
    · -- second produced clause [c2, c3, -aux]
      have h2 := litSat_append_left (τ := auxPre ++
        (!(litSat σ c0 || litSat σ c1)) :: auxAssign σ rest) hs2.1
        (hs2.2.trans_eq hσ.symm)
      have h3 := litSat_append_left (τ := auxPre ++
        (!(litSat σ c0 || litSat σ c1)) :: auxAssign σ rest) hs3.1
        (hs3.2.trans_eq hσ.symm)
      have ha := litSat_aux_neg hσ auxPre (!(litSat σ c0 || litSat σ c1))
        (auxAssign σ rest) hpre
      have hclause := hsat _ (List.mem_cons_self _ rest)
      simp only [clauseSat, List.any_cons, List.any_nil, Bool.or_false]
        at hclause ⊢
      rw [h2, h3, ha]
      revert hclause
      cases litSat σ c0 <;> cases litSat σ c1 <;> cases litSat σ c2 <;>
        cases litSat σ c3 <;> simp
    · -- clauses produced for the remaining original clauses
      have htail := ih (idx + 1)
        (auxPre ++ [!(litSat σ c0 || litSat σ c1)])
        (by simp [hpre])
        (fun c hc => hlen4 c (List.mem_cons_of_mem _ hc))
        (fun c hc => hshape c (List.mem_cons_of_mem _ hc))
        (fun c hc => hsat c (List.mem_cons_of_mem _ hc))
        cl hcl
      rw [show (auxPre ++ [!(litSat σ c0 || litSat σ c1)]) ++
          auxAssign σ rest =
          auxPre ++ (!(litSat σ c0 || litSat σ c1)) :: auxAssign σ rest
        from by simp] at htail
      exact htail

/-- C6: on a problem whose clauses all have exactly 4 literals (with
non-zero variable indices within range), `downconvert_4_3` doubles
`number_of_clauses`, grows `number_of_variables` by the original clause
count, and every assignment satisfying every original clause extends — by
some choice of values for the new auxiliary variables — to an assignment
satisfying every clause of the converted problem. -/
theorem downconvert_4_3_correct (p : SATProblem) (σ : List Bool)
    (hσ : σ.length = p.number_of_variables)
    (hlen4 : ∀ cl ∈ p.clauses, cl.length = 4)
    (hshape : ∀ cl ∈ p.clauses, ∀ e ∈ cl,
      e ≠ 0 ∧ e.natAbs ≤ p.number_of_variables)
    (hsat : ∀ cl ∈ p.clauses, clauseSat σ cl = true) :
    (downconvert_4_3 p).number_of_clauses = 2 * p.number_of_clauses ∧
    (downconvert_4_3 p).number_of_variables =
      p.number_of_variables + p.number_of_clauses ∧
    ∃ auxv : List Bool,
      ∀ cl ∈ (downconvert_4_3 p).clauses,
        clauseSat (σ ++ auxv) cl = true := by
  refine ⟨by rw [downconvert_4_3]; ring, rfl, auxAssign σ p.clauses, ?_⟩
  intro cl hcl
  have h := downconvert_clauses_sat σ p.number_of_variables hσ
    p.clauses 0 [] rfl hlen4 hshape hsat cl hcl
  simpa using h

/-- Witness for `downconvert_4_3_correct`: the 4-SAT problem
`(x1 ∨ x2 ∨ x3 ∨ x4)` and the satisfying assignment `(T,F,F,F)`: the
converted problem has 2 clauses over 5 variables and the extension by the
auxiliary value `false` satisfies both new clauses. -/
theorem downconvert_4_3_correct_witness :
    (downconvert_4_3 exProblemB).number_of_clauses = 2 ∧
    (downconvert_4_3 exProblemB).number_of_variables = 5 ∧
    ∃ auxv : List Bool,
      ∀ cl ∈ (downconvert_4_3 exProblemB).clauses,
        clauseSat ([true, false, false, false] ++ auxv) cl = true := by
  have h := downconvert_4_3_correct exProblemB [true, false, false, false]
    rfl (by decide) (by decide) (by decide)
  exact ⟨h.1, h.2.1, h.2.2⟩

end PySAT
